import Mathlib

/-!
Verification of the Mak-Gora duel engine (games/duel) against its
natural-language specification.

The engine is Python.  We shallowly embed the relevant parts:

* Python integers are `Int` (arbitrary precision, no overflow).
* Python binary64 floats are embedded exactly: a float value is the
  rational it denotes, and every arithmetic operation rounds its exact
  rational result to 53 significant bits with round-to-nearest, ties to
  even (`roundD` below).  This is the IEEE-754 semantics CPython uses;
  overflow/subnormal ranges never arise for the quantities in this file.
* Python dicts holding effect records become a structure with optional
  fields; `dict.get(k, d)` becomes `Option.getD`.
* Mutation of a `PlayerState` becomes explicit state passing.
-/

namespace MakGora

/-! ## Exact binary64 rounding

`rhe y` rounds a rational to the nearest integer, ties to even.
`roundD x` rounds a rational to the nearest binary64 value (53-bit
significand), ties to even, ignoring overflow and subnormals (all inputs
in this development are well inside the normal range). -/

/-- Round a rational to the nearest integer, ties to even. -/
def rhe (y : ℚ) : ℤ :=
  if y - (⌊y⌋ : ℚ) < 1/2 then ⌊y⌋
  else if 1/2 < y - (⌊y⌋ : ℚ) then ⌊y⌋ + 1
  else if ⌊y⌋ % 2 = 0 then ⌊y⌋ else ⌊y⌋ + 1

/-- Round a rational to the nearest binary64 value (round to nearest,
ties to even), with unbounded exponent range. -/
def roundD (x : ℚ) : ℚ :=
  if x = 0 then 0
  else if 0 < x then
    (rhe (x * (2 : ℚ) ^ ((52 : ℤ) - Int.log 2 x)) : ℚ) * (2 : ℚ) ^ (Int.log 2 x - 52)
  else
    -((rhe (-x * (2 : ℚ) ^ ((52 : ℤ) - Int.log 2 (-x))) : ℚ) * (2 : ℚ) ^ (Int.log 2 (-x) - 52))

theorem rhe_floor_le (y : ℚ) : ⌊y⌋ ≤ rhe y := by
  unfold rhe
  split
  · exact le_refl _
  · split
    · omega
    · split <;> omega

theorem rhe_le_floor_add_one (y : ℚ) : rhe y ≤ ⌊y⌋ + 1 := by
  unfold rhe
  split
  · omega
  · split
    · omega
    · split <;> omega

theorem rhe_intCast (n : ℤ) : rhe (n : ℚ) = n := by
  unfold rhe
  rw [Int.floor_intCast]
  norm_num

theorem abs_rhe_sub_le (y : ℚ) : |(rhe y : ℚ) - y| ≤ 1/2 := by
  have hfl : (⌊y⌋ : ℚ) ≤ y := Int.floor_le y
  have hfu : y < (⌊y⌋ : ℚ) + 1 := Int.lt_floor_add_one y
  unfold rhe
  split
  · rename_i h
    rw [abs_sub_le_iff]
    constructor <;> linarith
  · rename_i h
    push_neg at h
    split
    · rename_i h2
      push_cast
      rw [abs_sub_le_iff]
      constructor <;> linarith
    · rename_i h2
      push_neg at h2
      have heq : y - (⌊y⌋ : ℚ) = 1/2 := le_antisymm h2 h
      split <;> · push_cast; rw [abs_sub_le_iff]; constructor <;> linarith

theorem rhe_eq_low {y : ℚ} {n : ℤ} (hl : (n : ℚ) ≤ y) (hu : y < (n : ℚ) + 1/2) :
    rhe y = n := by
  have hfl : ⌊y⌋ = n := by
    apply Int.floor_eq_iff.mpr
    constructor
    · exact hl
    · linarith
  unfold rhe
  rw [hfl]
  have hc : y - (n : ℚ) < 1/2 := by linarith
  rw [if_pos hc]

theorem rhe_eq_high {y : ℚ} {n : ℤ} (hl : (n : ℚ) + 1/2 < y) (hu : y < (n : ℚ) + 1) :
    rhe y = n + 1 := by
  have hfl : ⌊y⌋ = n := by
    apply Int.floor_eq_iff.mpr
    constructor
    · linarith
    · linarith
  unfold rhe
  rw [hfl]
  have h1 : ¬(y - (n : ℚ) < 1/2) := by push_neg; linarith
  have h2 : 1/2 < y - (n : ℚ) := by linarith
  rw [if_neg h1, if_pos h2]

/-- Uniqueness of the binade: if `2^e ≤ x < 2^(e+1)` then `Int.log 2 x = e`. -/
theorem log2_eq_of_bracket {x : ℚ} {e : ℤ} (h1 : (2 : ℚ) ^ e ≤ x)
    (h2 : x < (2 : ℚ) ^ (e + 1)) : Int.log 2 x = e := by
  have hx : (0 : ℚ) < x := lt_of_lt_of_le (zpow_pos (by norm_num) e) h1
  have hb : 1 < 2 := by norm_num
  have hle : e ≤ Int.log 2 x := by
    rw [← Int.zpow_le_iff_le_log hb hx]
    push_cast
    exact h1
  have hlt : Int.log 2 x < e + 1 := by
    rw [← Int.lt_zpow_iff_log_lt hb hx]
    push_cast
    exact h2
  omega

theorem roundD_pos_eq {x : ℚ} (hx : 0 < x) :
    roundD x = (rhe (x * (2 : ℚ) ^ ((52 : ℤ) - Int.log 2 x)) : ℚ) *
      (2 : ℚ) ^ (Int.log 2 x - 52) := by
  unfold roundD
  rw [if_neg (ne_of_gt hx), if_pos hx]

/-- Evaluation helper: rewrite `roundD` once the binade is known. -/
theorem roundD_eq_of_bracket {x : ℚ} {e : ℤ} (h1 : (2 : ℚ) ^ e ≤ x)
    (h2 : x < (2 : ℚ) ^ (e + 1)) :
    roundD x = (rhe (x * (2 : ℚ) ^ ((52 : ℤ) - e)) : ℚ) * (2 : ℚ) ^ (e - 52) := by
  have hx : (0 : ℚ) < x := lt_of_lt_of_le (zpow_pos (by norm_num) e) h1
  rw [roundD_pos_eq hx, log2_eq_of_bracket h1 h2]

theorem roundD_zero : roundD 0 = 0 := by simp [roundD]

/-- Rounding error bound: for `x > 0`, `|roundD x - x| ≤ 2^(log2 x - 53)`. -/
theorem abs_roundD_sub_le {x : ℚ} (hx : 0 < x) :
    |roundD x - x| ≤ (2 : ℚ) ^ (Int.log 2 x - 53) := by
  set e := Int.log 2 x with he
  have hpow : (0 : ℚ) < (2 : ℚ) ^ (e - 52) := zpow_pos (by norm_num) _
  have hxeq : (x * (2 : ℚ) ^ ((52 : ℤ) - e)) * (2 : ℚ) ^ (e - 52) = x := by
    rw [mul_assoc, ← zpow_add₀ (by norm_num : (2:ℚ) ≠ 0)]
    norm_num
  rw [roundD_pos_eq hx, ← he]
  have hsplit : (rhe (x * (2 : ℚ) ^ ((52 : ℤ) - e)) : ℚ) * (2 : ℚ) ^ (e - 52) - x =
      ((rhe (x * (2 : ℚ) ^ ((52 : ℤ) - e)) : ℚ) - x * (2 : ℚ) ^ ((52 : ℤ) - e)) *
        (2 : ℚ) ^ (e - 52) := by
    rw [sub_mul, hxeq]
  rw [hsplit, abs_mul, abs_of_pos hpow]
  calc |(rhe (x * (2 : ℚ) ^ ((52 : ℤ) - e)) : ℚ) - x * (2 : ℚ) ^ ((52 : ℤ) - e)| *
        (2 : ℚ) ^ (e - 52)
      ≤ (1/2) * (2 : ℚ) ^ (e - 52) :=
        mul_le_mul_of_nonneg_right (abs_rhe_sub_le _) (le_of_lt hpow)
    _ = (2 : ℚ) ^ (e - 53) := by
        rw [show e - 53 = -1 + (e - 52) by ring, zpow_add₀ (by norm_num : (2:ℚ) ≠ 0)]
        norm_num

/-- The binade lower bound `2^(log2 x) ≤ x` specialised to base two over ℚ. -/
theorem zpow_log2_le {x : ℚ} (hx : 0 < x) : (2 : ℚ) ^ (Int.log 2 x) ≤ x := by
  have h := Int.zpow_log_le_self (b := 2) (by norm_num) hx
  push_cast at h
  exact h

theorem lt_zpow_log2_succ (x : ℚ) : x < (2 : ℚ) ^ (Int.log 2 x + 1) := by
  have h := Int.lt_zpow_succ_log_self (b := 2) (by norm_num) x
  push_cast at h
  exact h

/-- Relative error bound: for `x > 0`, `|roundD x - x| ≤ x * 2^(-53)`. -/
theorem abs_roundD_sub_le_rel {x : ℚ} (hx : 0 < x) :
    |roundD x - x| ≤ x * (2 : ℚ) ^ (-53 : ℤ) := by
  refine le_trans (abs_roundD_sub_le hx) ?_
  have h := zpow_log2_le hx
  calc (2 : ℚ) ^ (Int.log 2 x - 53)
      = (2 : ℚ) ^ (Int.log 2 x) * (2 : ℚ) ^ (-53 : ℤ) := by
        rw [← zpow_add₀ (by norm_num : (2:ℚ) ≠ 0)]; ring_nf
    _ ≤ x * (2 : ℚ) ^ (-53 : ℤ) :=
        mul_le_mul_of_nonneg_right h (le_of_lt (zpow_pos (by norm_num) _))

/-- Integers of magnitude below `2^53` are exactly representable. -/
theorem roundD_intCast {n : ℤ} (h0 : 0 < n) (h53 : n < 2 ^ 53) :
    roundD (n : ℚ) = n := by
  set e := Int.log 2 (n : ℚ) with he
  have hx : (0 : ℚ) < (n : ℚ) := by exact_mod_cast h0
  have hle : e ≤ 52 := by
    by_contra hgt
    push_neg at hgt
    have h1 : (2 : ℚ) ^ e ≤ (n : ℚ) := zpow_log2_le hx
    have h2 : (2 : ℚ) ^ (53 : ℤ) ≤ (2 : ℚ) ^ e :=
      zpow_le_zpow_right₀ (by norm_num) (by omega)
    have h3 : ((2 ^ 53 : ℤ) : ℚ) = (2 : ℚ) ^ (53 : ℤ) := by norm_num
    have hn : (n : ℚ) < ((2 ^ 53 : ℤ) : ℚ) := by exact_mod_cast h53
    rw [h3] at hn
    linarith
  have hnn : (0 : ℤ) ≤ 52 - e := by omega
  have hy : ((n * 2 ^ (52 - e).toNat : ℤ) : ℚ) = (n : ℚ) * (2 : ℚ) ^ ((52 : ℤ) - e) := by
    push_cast
    rw [← zpow_natCast (2 : ℚ) (52 - e).toNat, Int.toNat_of_nonneg hnn]
  rw [roundD_pos_eq hx, ← he, ← hy, rhe_intCast, hy]
  rw [mul_assoc, ← zpow_add₀ (by norm_num : (2:ℚ) ≠ 0)]
  norm_num

/-! ## CPython arithmetic primitives

Each binary float operation computes the exact rational result and
rounds it once (IEEE-754 round to nearest, ties to even).  CPython's
`int / int` true division and `int → float` conversion are also
correctly rounded. -/

/-- `float(n)` for a Python int, and the implicit int-to-float coercion. -/
def pyfloat (q : ℚ) : ℚ := roundD q

/-- Binary64 addition. -/
def pyadd (a b : ℚ) : ℚ := roundD (a + b)

/-- Binary64 subtraction. -/
def pysub (a b : ℚ) : ℚ := roundD (a - b)

/-- Binary64 multiplication. -/
def pymul (a b : ℚ) : ℚ := roundD (a * b)

/-- Python `int / int` true division (correctly rounded to binary64). -/
def pydivInt (a b : ℤ) : ℚ := roundD ((a : ℚ) / (b : ℚ))

/-- Python `int(x)` on a float: truncation toward zero. -/
def pytrunc (q : ℚ) : ℤ := if 0 ≤ q then ⌊q⌋ else -⌊-q⌋

/-! ## rules.py

```python
def mitigate(raw: int, defense: int) -> int:
    # basic mitigation curve
    return int(raw * (100 / (100 + max(defense, 0))))
```

`100 / (100 + max(defense, 0))` is float true division; multiplying the
int `raw` by that float coerces `raw` to float and rounds the product
once; `int(...)` truncates toward zero. -/

/-- `rules.mitigate`, embedded with exact binary64 semantics. -/
def mitigate (raw defense : ℤ) : ℤ :=
  pytrunc (pymul (pyfloat (raw : ℚ)) (pydivInt 100 (100 + max defense 0)))

/-- The specification's formula (spec §4.2):
`mitigate(raw, def) = floor(raw · 100 / (100 + max(def, 0)))` in exact
integer arithmetic.  This follows the spec's words, for comparison with
the source's `mitigate`. -/
def mitigateSpecFloor (raw defense : ℤ) : ℤ :=
  ⌊((raw * 100 : ℤ) : ℚ) / ((100 + max defense 0 : ℤ) : ℚ)⌋

/-- C1 (counterexample).  The claim "`mitigate(raw, def)` equals
`floor(raw * 100 / (100 + max(def, 0)))` computed in exact integer
arithmetic" is false on the code: at `raw = 145`, `def = 16` the float
product `145 * (100 / 116)` is `124.99999999999999`, so `mitigate`
returns 124 while the exact floor is 125. -/
theorem mitigate_float_counterexample :
    mitigate 145 16 = 124 ∧ mitigateSpecFloor 145 16 = 125 := by
  have hm : (100 + max (16:ℤ) 0) = 116 := by norm_num
  constructor
  · unfold mitigate
    rw [hm]
    have h1 : pyfloat ((145:ℤ) : ℚ) = 145 := by
      unfold pyfloat
      rw [roundD_eq_of_bracket (e := 7) (by norm_num) (by norm_num)]
      rw [show ((145:ℤ):ℚ) * (2:ℚ) ^ ((52:ℤ) - 7) = ((5101733952880640 : ℤ) : ℚ) by norm_num]
      rw [rhe_eq_low (n := 5101733952880640) (by norm_num) (by norm_num)]
      norm_num
    have h2 : pydivInt 100 116 = 3882413471871117/4503599627370496 := by
      unfold pydivInt
      rw [roundD_eq_of_bracket (e := -1) (by norm_num) (by norm_num)]
      rw [rhe_eq_low (n := 7764826943742234) (by norm_num) (by norm_num)]
      norm_num
    rw [h1, h2]
    have h3 : pymul 145 (3882413471871117/4503599627370496) =
        8796093022207999/70368744177664 := by
      unfold pymul
      rw [show (145 : ℚ) * (3882413471871117/4503599627370496) =
        562949953421311965/4503599627370496 by norm_num]
      rw [roundD_eq_of_bracket (e := 6) (by norm_num) (by norm_num)]
      rw [rhe_eq_low (n := 8796093022207999) (by norm_num) (by norm_num)]
      norm_num
    rw [h3]
    unfold pytrunc
    rw [if_pos (by norm_num : (0:ℚ) ≤ 8796093022207999/70368744177664)]
    rw [Int.floor_eq_iff]
    norm_num
  · unfold mitigateSpecFloor
    rw [hm]
    norm_num

/-- C1 (amended).  `mitigate` computes
`int(raw * (100 / (100 + max(def, 0))))` in binary64 floating point;
for `0 ≤ raw ≤ 2^50` the result is within 1 of the exact integer
`floor(raw * 100 / (100 + max(def, 0)))` (and can differ from it, see
the counterexample). -/
theorem mitigate_within_one_of_spec_floor (raw defense : ℤ)
    (h0 : 0 ≤ raw) (h50 : raw ≤ 2 ^ 50) :
    |mitigate raw defense - mitigateSpecFloor raw defense| ≤ 1 := by
  have hmax : (0 : ℤ) ≤ max defense 0 := le_max_right defense 0
  set m : ℤ := 100 + max defense 0 with hm
  have hm100 : (100 : ℤ) ≤ m := by omega
  have hmQ : (100 : ℚ) ≤ (m : ℚ) := by exact_mod_cast hm100
  have hmpos : (0 : ℚ) < (m : ℚ) := by linarith
  set t : ℚ := (100 : ℚ) / (m : ℚ) with ht
  have ht0 : 0 < t := div_pos (by norm_num) hmpos
  have ht1 : t ≤ 1 := by rw [ht, div_le_one hmpos]; linarith
  have hε : ((2:ℚ) ^ (-53 : ℤ)) = 1/9007199254740992 := by norm_num
  have hcdiv : pydivInt 100 m = roundD t := by
    unfold pydivInt
    congr 1
  set c : ℚ := roundD t with hcdef
  have hcerr : |c - t| ≤ t * (1/9007199254740992) := by
    rw [← hε]; exact abs_roundD_sub_le_rel ht0
  clear_value c
  obtain ⟨hcerr1, hcerr2⟩ := abs_le.mp hcerr
  have hc0 : 0 < c := by linarith
  have hspec : mitigateSpecFloor raw defense = ⌊(raw : ℚ) * t⌋ := by
    unfold mitigateSpecFloor
    rw [← hm, ht]
    congr 1
    push_cast
    ring
  rcases eq_or_lt_of_le h0 with hz | hpos
  · -- raw = 0: both sides are 0
    have hraw : raw = 0 := hz.symm
    subst hraw
    have h1 : mitigate 0 defense = 0 := by
      unfold mitigate pyfloat pymul pytrunc
      rw [← hm]
      rw [show ((0:ℤ):ℚ) = (0:ℚ) by norm_num, roundD_zero]
      rw [zero_mul, roundD_zero]
      norm_num
    rw [h1, hspec]
    norm_num
  · have hR53 : raw < 2 ^ 53 := lt_of_le_of_lt h50 (by norm_num)
    have hfl : pyfloat ((raw : ℤ) : ℚ) = (raw : ℚ) := roundD_intCast hpos hR53
    have hrQ : (0 : ℚ) < (raw : ℚ) := by exact_mod_cast hpos
    have hrle : (raw : ℚ) ≤ 1125899906842624 := by
      have h2 : raw ≤ 1125899906842624 := by
        have h3 : (2:ℤ)^50 = 1125899906842624 := by norm_num
        omega
      exact_mod_cast h2
    set u : ℚ := (raw : ℚ) * c with hu
    have hu0 : 0 < u := mul_pos hrQ hc0
    set p : ℚ := roundD u with hp
    have hperr : |p - u| ≤ u * (1/9007199254740992) := by
      rw [← hε]; exact abs_roundD_sub_le_rel hu0
    clear_value u p
    obtain ⟨hperr1, hperr2⟩ := abs_le.mp hperr
    set x : ℚ := (raw : ℚ) * t with hx
    have hx0 : 0 < x := mul_pos hrQ ht0
    have hxle : x ≤ 1125899906842624 := by
      calc x ≤ (raw : ℚ) * 1 := mul_le_mul_of_nonneg_left ht1 (le_of_lt hrQ)
        _ = (raw : ℚ) := mul_one _
        _ ≤ 1125899906842624 := hrle
    have huxl : x * (1 - 1/9007199254740992) ≤ u := by
      have hone := mul_le_mul_of_nonneg_left hcerr1 (le_of_lt hrQ)
      rw [hu, hx]
      nlinarith [hone]
    have huxu : u ≤ x * (1 + 1/9007199254740992) := by
      have hone := mul_le_mul_of_nonneg_left hcerr2 (le_of_lt hrQ)
      rw [hu, hx]
      nlinarith [hone]
    clear_value x
    have hp0 : (0 : ℚ) ≤ p := by linarith
    have hpxu : p - x ≤ 1/2 := by linarith
    have hpxl : -(1/2) ≤ p - x := by linarith
    have hmit : mitigate raw defense = ⌊p⌋ := by
      unfold mitigate pymul pytrunc
      rw [← hm, hfl, hcdiv, ← hu, ← hp]
      rw [if_pos hp0]
    rw [hmit, hspec]
    have hfp1 : (⌊p⌋ : ℚ) ≤ p := Int.floor_le p
    have hfp2 : p < (⌊p⌋ : ℚ) + 1 := Int.lt_floor_add_one p
    have hfx1 : (⌊x⌋ : ℚ) ≤ x := Int.floor_le x
    have hfx2 : x < (⌊x⌋ : ℚ) + 1 := Int.lt_floor_add_one x
    have hup : (⌊p⌋ : ℚ) < (⌊x⌋ : ℚ) + 2 := by linarith
    have hdn : (⌊x⌋ : ℚ) < (⌊p⌋ : ℚ) + 2 := by linarith
    have hupz : ⌊p⌋ < ⌊x⌋ + 2 := by exact_mod_cast hup
    have hdnz : ⌊x⌋ < ⌊p⌋ + 2 := by exact_mod_cast hdn
    rw [abs_le]
    omega

/-- C1 (witness).  The amended bound applied at the concrete input
`raw = 145`, `def = 16`. -/
theorem mitigate_within_one_witness :
    (0 : ℤ) ≤ 145 ∧ (145 : ℤ) ≤ 2 ^ 50 ∧
      |mitigate 145 16 - mitigateSpecFloor 145 16| ≤ 1 :=
  ⟨by norm_num, by norm_num,
    mitigate_within_one_of_spec_floor 145 16 (by norm_num) (by norm_num)⟩

/-! ## effects.py

The effect records are Python dicts; we embed the union of the fields the
claims exercise as optional fields (absent key = `none`).  `models.py` in
this snapshot predates `effects.py`: its `Resources` lacks the scalar
`absorb` / `absorb_max` attributes that `effects.py` reads and writes, so
`Resources` below carries the fields exactly as `effects.py` accesses
them.  Logs are threaded explicitly; mutation becomes state passing. -/

/-! ## effects.py data model -/

structure Regen where
  hp : Int := 0
  mp : Int := 0
  energy : Int := 0
deriving DecidableEq

structure Passive where
  trigger : Option String := none
  type : Option String := none
  value : Option ℚ := none
deriving DecidableEq

structure Effect where
  id : Option String := none
  type : Option String := none
  name : Option String := none
  duration : Option Int := none
  flags : List (String × Bool) := []
  value : Option ℚ := none
  breakOnDamageOver : Option Int := none
  regen : Option Regen := none
  passive : Option Passive := none
  source : Option String := none
  sourceItem : Option String := none
  sourceSid : Option String := none
deriving DecidableEq

structure Resources where
  hp : Int
  hpMax : Int
  mp : Int
  mpMax : Int
  energy : Int
  energyMax : Int
  rage : Int
  rageMax : Int
  absorb : Int
  absorbMax : Option Int
deriving DecidableEq

structure PlayerState where
  sid : String
  res : Option Resources
  stats : List (String × Int) := []
  effects : List Effect := []
deriving DecidableEq

def durOf (e : Effect) : Int := e.duration.getD 0

def valueIntOf (e : Effect) : Int := pytrunc (e.value.getD 0)

def isPermanent (e : Effect) : Bool :=
  e.type == some "item_passive" || e.type == some "burn"

def tickDurations : List Effect → List Effect
  | [] => []
  | e :: rest =>
    if isPermanent e then e :: tickDurations rest
    else
      let d := durOf e - 1
      if 0 < d then {e with duration := some d} :: tickDurations rest
      else tickDurations rest

def hasFlag (target : PlayerState) (flag : String) : Bool :=
  target.effects.any fun e => ((e.flags.lookup flag).getD false)

def isStealthed (target : PlayerState) : Bool := hasFlag target "stealthed"

def removeEffect (target : PlayerState) (effectId : String) : PlayerState :=
  {target with effects := target.effects.filter fun e => e.id != some effectId}

def removeStealth (target : PlayerState) : PlayerState := removeEffect target "stealth"

def firstStealth : List Effect → Option Effect
  | [] => none
  | e :: rest => if e.id == some "stealth" then some e else firstStealth rest

def breakStealthOnDamage (target : PlayerState) (damage : Int) : PlayerState :=
  if damage ≤ 0 then target
  else
    match firstStealth target.effects with
    | none => target
    | some e =>
      match e.breakOnDamageOver with
      | none => removeStealth target
      | some threshold => if threshold < damage then removeStealth target else target

def mitigationMultiplier (target : PlayerState) : ℚ :=
  let total := target.effects.foldl
    (fun acc e =>
      if e.type == some "mitigation" then pyadd acc (pyfloat (e.value.getD 0)) else acc)
    0
  let capped := max 0 (min total (roundD (4/5)))
  pysub 1 capped

def applyBurnGo (value duration : Int) (sourceItem : String) (sourceSid : Option String) :
    List Effect → Option (List Effect)
  | [] => none
  | e :: rest =>
    if e.type == some "burn" then
      some ({e with
        value := some ((max (valueIntOf e) value : Int) : ℚ),
        duration := some (max (durOf e) duration),
        source := some sourceItem,
        sourceSid := match sourceSid with
          | some s => some s
          | none => e.sourceSid} :: rest)
    else (applyBurnGo value duration sourceItem sourceSid rest).map (e :: ·)

def applyBurn (target : PlayerState) (value : Int) (sourceItem : String)
    (duration : Int) (sourceSid : Option String) : PlayerState :=
  match applyBurnGo value duration sourceItem sourceSid target.effects with
  | some es => {target with effects := es}
  | none =>
    {target with effects := target.effects ++
      [{type := some "burn", value := some (value : ℚ), duration := some duration,
        source := some sourceItem, sourceSid := sourceSid}]}

def addAbsorb (ps : PlayerState) (amount : Int) (_sourceItem : Option String)
    (cap : Option Int) : Int × PlayerState :=
  match ps.res with
  | none => (0, ps)
  | some r =>
    if amount = 0 then (r.absorb, ps)
    else
      let next0 := r.absorb + amount
      let next := match cap with
        | some c => max 0 (min next0 c)
        | none => max 0 next0
      let r1 := {r with absorb := next}
      let r2 := match r1.absorbMax with
        | some am => {r1 with absorbMax := some (max am r1.absorb)}
        | none => r1
      (r2.absorb, {ps with res := some r2})

def consumeAbsorb (ps : PlayerState) (incoming : Int) : Int × Int × PlayerState :=
  match ps.res with
  | none => (0, incoming, ps)
  | some r =>
    let incomingValue := max 0 incoming
    if incomingValue ≤ 0 ∨ r.absorb ≤ 0 then (0, incomingValue, ps)
    else
      let absorbed := min r.absorb incomingValue
      (absorbed, incomingValue - absorbed,
        {ps with res := some {r with absorb := r.absorb - absorbed}})

def mpRegenPerTurn : Int := 2
def energyRegenPerTurn : Int := 5

def tickDots (ps : PlayerState) (log : List String) (label : String) :
    PlayerState × List String × List (String × Int) :=
  ps.effects.foldl
    (fun acc e =>
      let cur := acc.1
      let lg := acc.2.1
      let srcs := acc.2.2
      if e.type == some "burn" then
        let burnDmg := valueIntOf e
        if 0 < burnDmg then
          let cur1 := match cur.res with
            | some r => {cur with res := some {r with hp := r.hp - burnDmg}}
            | none => cur  -- unreachable: end_of_turn guards ps.res before calling
          let cur2 := breakStealthOnDamage cur1 burnDmg
          let lg2 := lg ++ [s!"{label} burns for {burnDmg} damage."]
          let srcs2 := match e.sourceSid with
            | some s => if s = "" then srcs else srcs ++ [(s, burnDmg)]
            | none => srcs
          (cur2, lg2, srcs2)
        else (cur, lg, srcs)
      else (cur, lg, srcs))
    (ps, log, ([] : List (String × Int)))

def triggerEndOfTurnPassives (ps : PlayerState) (log : List String) (label : String) :
    PlayerState × List String × Int :=
  ps.effects.foldl
    (fun acc e =>
      let cur := acc.1
      let lg := acc.2.1
      let heal := acc.2.2
      if e.type == some "item_passive" then
        match e.passive with
        | none => (cur, lg, heal)
        | some pv =>
          if pv.trigger == some "end_of_turn" then
            if pv.type == some "heal_self" then
              let v := pytrunc (pv.value.getD 0)
              if 0 < v then
                match cur.res with
                | some r =>
                  let newHp := min (r.hp + v) r.hpMax
                  let gained := newHp - r.hp
                  let src := e.sourceItem.getD "item"
                  ({cur with res := some {r with hp := newHp}},
                    lg ++ [s!"{label} heals {v} HP from {src}."], heal + gained)
                | none => (cur, lg, heal)  -- unreachable: guarded by end_of_turn
              else (cur, lg, heal)
            else if pv.type == some "absorb_self" then
              let v := pytrunc (pv.value.getD 0)
              if 0 < v then
                let cur2 := (addAbsorb cur v none none).2
                let src := e.sourceItem.getD "item"
                (cur2, lg ++ [s!"{label} gains {v} absorb from {src}."], heal)
              else (cur, lg, heal)
            else (cur, lg, heal)
          else (cur, lg, heal)
      else (cur, lg, heal))
    (ps, log, (0 : Int))

def triggerEndOfTurnEffects (ps : PlayerState) (log : List String) (label : String) :
    PlayerState × List String × Int :=
  ps.effects.foldl
    (fun acc e =>
      let cur := acc.1
      let lg := acc.2.1
      let heal := acc.2.2
      match e.regen with
      | none => (cur, lg, heal)
      | some rg =>
        match cur.res with
        | none => (cur, lg, heal)  -- unreachable: guarded by end_of_turn
        | some r =>
          let hpGain := rg.hp
          let mpGain := rg.mp
          let energyGain := rg.energy
          let hp2 := if 0 < hpGain then min (r.hp + hpGain) r.hpMax else r.hp
          let gained := hp2 - r.hp
          let mp2 := if 0 < mpGain then min (r.mp + mpGain) r.mpMax else r.mp
          let energy2 := if 0 < energyGain then min (r.energy + energyGain) r.energyMax else r.energy
          let cur2 := {cur with res := some {r with hp := hp2, mp := mp2, energy := energy2}}
          let heal2 := if 0 < hpGain then heal + gained else heal
          let name := e.name.getD "an effect"
          let lg2 :=
            if 0 < hpGain ∨ 0 < mpGain ∨ 0 < energyGain then
              lg ++ [s!"{label} recovers {hpGain} HP, {mpGain} MP, and {energyGain} Energy from {name}."]
            else lg
          (cur2, lg2, heal2))
    (ps, log, (0 : Int))

structure EndSummary where
  damageSources : List (String × Int)
  healingDone : Int
deriving DecidableEq

def endOfTurn (ps : PlayerState) (log : List String) (label : String) :
    PlayerState × List String × EndSummary :=
  match ps.res with
  | none => (ps, log, ⟨[], 0⟩)
  | some _ =>
    if hasFlag ps "cycloned" then
      ({ps with effects := tickDurations ps.effects}, log, ⟨[], 0⟩)
    else
      let a1 := tickDots ps log label
      let a2 := triggerEndOfTurnPassives a1.1 a1.2.1 label
      let a3 := triggerEndOfTurnEffects a2.1 a2.2.1 label
      let ps4 := {a3.1 with effects := tickDurations a3.1.effects}
      let ps5 := match ps4.res with
        | some r =>
          if 0 < r.hp then
            {ps4 with res := some {r with
              mp := min (r.mp + mpRegenPerTurn) r.mpMax,
              energy := min (r.energy + energyRegenPerTurn) r.energyMax}}
          else ps4
        | none => ps4
      (ps5, a3.2.1, ⟨a1.2.2, a2.2.2 + a3.2.2⟩)

/-- The `stealth` entry of `EFFECT_TEMPLATES`. -/
def stealthTemplate : Effect :=
  {id := some "stealth", type := some "stealth", name := some "Stealth",
    duration := some 3, flags := [("stealthed", true)], breakOnDamageOver := some 5}

/-! ## Binary64 facts for the mitigation cap

The source clamps the mitigation sum at the float literal `0.8`, whose
binary64 value is `3602879701896397 / 2^52 = 0.8000000000000000444…`;
consequently `1.0 - 0.8` is `900719925474099 / 2^52 =
0.19999999999999995559…`, strictly below `1/5`. -/

theorem roundD_one : roundD (1 : ℚ) = 1 := by
  rw [roundD_eq_of_bracket (e := 0) (by norm_num) (by norm_num)]
  rw [show (1 : ℚ) * (2:ℚ) ^ ((52:ℤ) - 0) = ((4503599627370496 : ℤ) : ℚ) by norm_num]
  rw [rhe_intCast]
  norm_num

theorem roundD_half : roundD (1/2 : ℚ) = 1/2 := by
  rw [roundD_eq_of_bracket (e := -1) (by norm_num) (by norm_num)]
  rw [show (1/2 : ℚ) * (2:ℚ) ^ ((52:ℤ) - (-1)) = ((4503599627370496 : ℤ) : ℚ) by norm_num]
  rw [rhe_intCast]
  norm_num

/-- The binary64 value of the Python literal `0.8`. -/
theorem roundD_pointEight :
    roundD (4/5 : ℚ) = 3602879701896397/4503599627370496 := by
  rw [roundD_eq_of_bracket (e := -1) (by norm_num) (by norm_num)]
  rw [rhe_eq_high (n := 7205759403792793) (by norm_num) (by norm_num)]
  norm_num

/-- The binary64 value of `1.0 - 0.8`. -/
theorem roundD_oneMinusPointEight :
    roundD (1 - 3602879701896397/4503599627370496 : ℚ) =
      900719925474099/4503599627370496 := by
  rw [show (1 - 3602879701896397/4503599627370496 : ℚ) =
    900719925474099/4503599627370496 by norm_num]
  rw [roundD_eq_of_bracket (e := -3) (by norm_num) (by norm_num)]
  rw [show (900719925474099/4503599627370496 : ℚ) * (2:ℚ) ^ ((52:ℤ) - (-3)) =
    ((7205759403792792 : ℤ) : ℚ) by norm_num]
  rw [rhe_intCast]
  norm_num

theorem roundD_le_one {z : ℚ} (h0 : 0 < z) (h1 : z ≤ 1) : roundD z ≤ 1 := by
  rcases eq_or_lt_of_le h1 with heq | hlt
  · rw [heq, roundD_one]
  · set e := Int.log 2 z with he
    have hneg : e ≤ -1 := by
      by_contra hc
      push_neg at hc
      have h2 : (2:ℚ) ^ (0:ℤ) ≤ (2:ℚ) ^ e := zpow_le_zpow_right₀ one_le_two (by omega)
      have h3 := zpow_log2_le h0
      rw [zpow_zero] at h2
      linarith
    have hy : z * (2:ℚ) ^ ((52:ℤ) - e) < (2:ℚ) ^ (53:ℤ) := by
      have h4 := lt_zpow_log2_succ z
      rw [← he] at h4
      calc z * (2:ℚ) ^ ((52:ℤ) - e)
          < (2:ℚ) ^ (e + 1) * (2:ℚ) ^ ((52:ℤ) - e) :=
            mul_lt_mul_of_pos_right h4 (zpow_pos (by norm_num) _)
        _ = (2:ℚ) ^ (53:ℤ) := by
            rw [← zpow_add₀ (by norm_num : (2:ℚ) ≠ 0)]
            congr 1
            ring
    have hcast : ((2 ^ 53 : ℤ) : ℚ) = (2:ℚ) ^ (53:ℤ) := by norm_num
    have hyfl : ⌊z * (2:ℚ) ^ ((52:ℤ) - e)⌋ + 1 ≤ 2 ^ 53 := by
      have h5 := Int.floor_le (z * (2:ℚ) ^ ((52:ℤ) - e))
      have h6 : (⌊z * (2:ℚ) ^ ((52:ℤ) - e)⌋ : ℚ) < ((2 ^ 53 : ℤ) : ℚ) := by
        rw [hcast]; linarith
      have h7 : ⌊z * (2:ℚ) ^ ((52:ℤ) - e)⌋ < 2 ^ 53 := by exact_mod_cast h6
      omega
    have hrhe : rhe (z * (2:ℚ) ^ ((52:ℤ) - e)) ≤ 2 ^ 53 :=
      le_trans (rhe_le_floor_add_one _) hyfl
    rw [roundD_pos_eq h0, ← he]
    calc (rhe (z * (2:ℚ) ^ ((52:ℤ) - e)) : ℚ) * (2:ℚ) ^ (e - 52)
        ≤ ((2 ^ 53 : ℤ) : ℚ) * (2:ℚ) ^ (e - 52) := by
          apply mul_le_mul_of_nonneg_right _ (le_of_lt (zpow_pos (by norm_num) _))
          exact_mod_cast hrhe
      _ = (2:ℚ) ^ (e + 1) := by
          rw [hcast, ← zpow_add₀ (by norm_num : (2:ℚ) ≠ 0)]
          congr 1
          ring
      _ ≤ (2:ℚ) ^ (0:ℤ) := zpow_le_zpow_right₀ one_le_two (by omega)
      _ = 1 := zpow_zero 2

theorem roundD_mitigation_lb {z : ℚ}
    (hL : (900719925474099/4503599627370496 : ℚ) ≤ z) (h1 : z ≤ 1) :
    (900719925474099/4503599627370496 : ℚ) ≤ roundD z := by
  have h0 : 0 < z := lt_of_lt_of_le (by norm_num) hL
  rcases lt_or_le z (1/4) with hq | hq
  · -- binade [2^-3, 2^-2)
    have hb := roundD_eq_of_bracket (x := z) (e := -3)
      (by
        rw [show (2:ℚ) ^ (-3:ℤ) = 1/8 by norm_num]
        linarith [hL, show (1/8 : ℚ) ≤ 900719925474099/4503599627370496 by norm_num])
      (by
        rw [show ((-3:ℤ) + 1) = (-2:ℤ) by ring, show (2:ℚ) ^ (-2:ℤ) = 1/4 by norm_num]
        exact hq)
    rw [hb]
    have h55 : (2:ℚ) ^ ((52:ℤ) - (-3)) = 36028797018963968 := by norm_num
    have hfl : (7205759403792792 : ℤ) ≤ ⌊z * (2:ℚ) ^ ((52:ℤ) - (-3))⌋ := by
      apply Int.le_floor.mpr
      rw [h55]
      push_cast
      linarith
    have hrhe : (7205759403792792 : ℤ) ≤ rhe (z * (2:ℚ) ^ ((52:ℤ) - (-3))) :=
      le_trans hfl (rhe_floor_le _)
    have hrheQ : ((7205759403792792 : ℤ) : ℚ) ≤
        (rhe (z * (2:ℚ) ^ ((52:ℤ) - (-3))) : ℚ) := by exact_mod_cast hrhe
    calc (900719925474099/4503599627370496 : ℚ)
        = ((7205759403792792 : ℤ) : ℚ) * (2:ℚ) ^ ((-3:ℤ) - 52) := by norm_num
      _ ≤ (rhe (z * (2:ℚ) ^ ((52:ℤ) - (-3))) : ℚ) * (2:ℚ) ^ ((-3:ℤ) - 52) :=
          mul_le_mul_of_nonneg_right hrheQ (le_of_lt (zpow_pos (by norm_num) _))
  · -- z ≥ 1/4: the rounding error is at most 2^-54
    rcases eq_or_lt_of_le h1 with heq | hlt
    · rw [heq, roundD_one]
      norm_num
    · have hneg : Int.log 2 z ≤ -1 := by
        by_contra hc
        push_neg at hc
        have h2 : (2:ℚ) ^ (0:ℤ) ≤ (2:ℚ) ^ (Int.log 2 z) :=
          zpow_le_zpow_right₀ one_le_two (by omega)
        have h3 := zpow_log2_le h0
        rw [zpow_zero] at h2
        linarith
      have herr := abs_roundD_sub_le h0
      have hmono : (2:ℚ) ^ (Int.log 2 z - 53) ≤ (2:ℚ) ^ (-54:ℤ) :=
        zpow_le_zpow_right₀ one_le_two (by omega)
      have h54 : (2:ℚ) ^ (-54:ℤ) = 1/18014398509481984 := by norm_num
      rw [h54] at hmono
      have habs := abs_le.mp (le_trans herr hmono)
      have : z - 1/18014398509481984 ≤ roundD z := by linarith [habs.1]
      linarith [show (900719925474099/4503599627370496 : ℚ) ≤
        1/4 - 1/18014398509481984 by norm_num]

/-- C5 (amended).  `mitigation_multiplier` sums the `value` fields of
`mitigation` effects in binary64, clamps the sum to
`[0.0, fl64(0.8)]` where `fl64(0.8) = 0.8000000000000000444…`, and
returns the binary64 difference `1.0 - sum`; the result therefore always
lies in `[1 - fl64(0.8), 1.0] = [0.19999999999999995559…, 1.0]`, which
dips just below `0.2` when the cap binds. -/
theorem mitigation_multiplier_bounds (target : PlayerState) :
    (900719925474099/4503599627370496 : ℚ) ≤ mitigationMultiplier target ∧
      mitigationMultiplier target ≤ 1 := by
  have hcap := roundD_pointEight
  unfold mitigationMultiplier pysub
  rw [hcap]
  set total := target.effects.foldl
    (fun acc e =>
      if e.type == some "mitigation" then pyadd acc (pyfloat (e.value.getD 0)) else acc)
    (0 : ℚ) with htotal
  clear_value total
  set capped := max 0 (min total (3602879701896397/4503599627370496 : ℚ)) with hcapped
  have hc0 : 0 ≤ capped := le_max_left _ _
  have hc1 : capped ≤ 3602879701896397/4503599627370496 := by
    rw [hcapped]
    apply max_le (by norm_num) (min_le_right _ _)
  have hz0 : (900719925474099/4503599627370496 : ℚ) ≤ 1 - capped := by linarith
  have hz1 : 1 - capped ≤ 1 := by linarith
  exact ⟨roundD_mitigation_lb hz0 hz1,
    roundD_le_one (lt_of_lt_of_le (by norm_num) hz0) hz1⟩

/-- A concrete effect list that drives the mitigation sum to the cap:
two `mitigation` effects of value `0.5` (the `defend` ability's block
is `{type: mitigation, value: 0.5}`). -/
def cappedMitigationState : PlayerState :=
  {sid := "p1", res := none,
    effects := [{type := some "mitigation", value := some (1/2)},
      {type := some "mitigation", value := some (1/2)}]}

/-- C5 (counterexample).  On a player with two value-`0.5` mitigation
effects the code returns `1.0 - fl64(0.8) = 0.19999999999999995559…`,
strictly below `0.2`: the claimed interval `[0.2, 1.0]` does not hold. -/
theorem mitigation_multiplier_below_pointTwo :
    mitigationMultiplier cappedMitigationState =
      900719925474099/4503599627370496 ∧
    mitigationMultiplier cappedMitigationState < 1/5 := by
  have hhalf : pyfloat ((1/2 : ℚ)) = 1/2 := roundD_half
  have hstep1 : pyadd 0 (1/2) = 1/2 := by
    unfold pyadd
    rw [show (0 : ℚ) + 1/2 = 1/2 by norm_num]
    exact roundD_half
  have hstep2 : pyadd (1/2) (1/2) = 1 := by
    unfold pyadd
    rw [show (1/2 : ℚ) + 1/2 = 1 by norm_num]
    exact roundD_one
  have hsum : mitigationMultiplier cappedMitigationState =
      pysub 1 (max 0 (min 1 (roundD (4/5)))) := by
    unfold mitigationMultiplier cappedMitigationState
    simp only [List.foldl_cons, List.foldl_nil]
    norm_num [hhalf, hstep1, hstep2]
  rw [hsum, roundD_pointEight]
  have hmin : min (1:ℚ) (3602879701896397/4503599627370496) =
      (3602879701896397/4503599627370496 : ℚ) := by
    apply min_eq_right
    norm_num
  rw [hmin]
  have hmax : max (0:ℚ) (3602879701896397/4503599627370496) =
      (3602879701896397/4503599627370496 : ℚ) := by
    apply max_eq_right
    norm_num
  rw [hmax]
  unfold pysub
  rw [roundD_oneMinusPointEight]
  norm_num

/-! ## Theorems -/

theorem tickDurations_eq (effects : List Effect) :
    tickDurations effects =
      (effects.filter fun e => isPermanent e || decide (0 < durOf e - 1)).map
        fun e => if isPermanent e then e else {e with duration := some (durOf e - 1)} := by
  induction effects with
  | nil => rfl
  | cons a rest ih =>
    simp only [tickDurations, List.filter_cons]
    by_cases hp : isPermanent a
    · have hcond : (isPermanent a || decide (0 < durOf a - 1)) = true := by simp [hp]
      rw [if_pos hp, if_pos hcond, List.map_cons, if_pos hp, ih]
    · rw [if_neg hp]
      by_cases hd : 0 < durOf a - 1
      · have hcond : (isPermanent a || decide (0 < durOf a - 1)) = true := by
          simp [hd]
        rw [if_pos hd, if_pos hcond, List.map_cons, if_neg hp, ih]
      · have hcond : ¬ (isPermanent a || decide (0 < durOf a - 1)) = true := by
          simp [hp, hd]
        rw [if_neg hd, if_neg hcond, ih]

/-- C6.  `tick_durations` preserves the duration invariant: every
surviving effect is exempt (`item_passive`/`burn`, kept untouched) or
has duration at least 1; the result is exactly the exempt effects plus
the non-exempt ones whose decremented duration stays positive, each
with its duration decremented — so every non-exempt effect whose
duration would reach 0 or less is removed. -/
theorem tick_durations_invariant (effects : List Effect) :
    (∀ e ∈ tickDurations effects, isPermanent e = true ∨ 1 ≤ durOf e) ∧
    tickDurations effects =
      (effects.filter fun e => isPermanent e || decide (0 < durOf e - 1)).map
        fun e => if isPermanent e then e else {e with duration := some (durOf e - 1)} := by
  refine ⟨?_, tickDurations_eq effects⟩
  intro e he
  rw [tickDurations_eq] at he
  obtain ⟨a, ha, rfl⟩ := List.mem_map.mp he
  obtain ⟨hmem, hkeep⟩ := List.mem_filter.mp ha
  by_cases hp : isPermanent a
  · left; simp [hp]
  · right
    simp only [hp, Bool.false_or, decide_eq_true_eq] at hkeep
    rw [if_neg hp]
    have hdur : durOf {a with duration := some (durOf a - 1)} = durOf a - 1 := rfl
    rw [hdur]
    omega

/-- C4.  Absorb accounting is conservative: for incoming `I ≥ 0` and a
nonnegative pool, `consume_absorb` returns `(absorbed, remaining)` with
`absorbed = min(I, pool)`, `absorbed + remaining = I`, and the pool
decreased by exactly `absorbed`, never going below 0; and `add_absorb`
with amount 0 is a no-op returning the unchanged pool. -/
theorem absorb_accounting (ps : PlayerState) (r : Resources) (incoming : Int)
    (hres : ps.res = some r) (hI : 0 ≤ incoming) (hpool : 0 ≤ r.absorb) :
    (consumeAbsorb ps incoming).1 = min incoming r.absorb ∧
    (consumeAbsorb ps incoming).1 + (consumeAbsorb ps incoming).2.1 = incoming ∧
    ((consumeAbsorb ps incoming).2.2).res =
      some {r with absorb := r.absorb - min incoming r.absorb} ∧
    0 ≤ r.absorb - min incoming r.absorb ∧
    addAbsorb ps 0 none none = (r.absorb, ps) := by
  have hmax : max 0 incoming = incoming := max_eq_right hI
  have hadd : addAbsorb ps 0 none none = (r.absorb, ps) := by
    simp [addAbsorb, hres]
  by_cases hskip : incoming ≤ 0 ∨ r.absorb ≤ 0
  · have hout : consumeAbsorb ps incoming = (0, incoming, ps) := by
      simp only [consumeAbsorb, hres, hmax]
      rw [if_pos hskip]
    have hmin : min incoming r.absorb = 0 := by omega
    rw [hout, hmin]
    refine ⟨rfl, by show 0 + incoming = incoming; omega, ?_, by omega, hadd⟩
    show ps.res = some ({r with absorb := r.absorb - 0} : Resources)
    have h0 : r.absorb - 0 = r.absorb := by omega
    rw [h0]
    exact hres
  · have hout : consumeAbsorb ps incoming =
        (min r.absorb incoming, incoming - min r.absorb incoming,
          {ps with res := some {r with absorb := r.absorb - min r.absorb incoming}}) := by
      simp only [consumeAbsorb, hres, hmax]
      rw [if_neg hskip]
    have hmin : min r.absorb incoming = min incoming r.absorb := by omega
    rw [hout, hmin]
    refine ⟨rfl, ?_, rfl, by omega, hadd⟩
    show min incoming r.absorb + (incoming - min incoming r.absorb) = incoming
    omega

theorem applyBurnGo_none (v d : Int) (si : String) (ss : Option String) :
    ∀ l : List Effect, (∀ e ∈ l, ¬ e.type = some "burn") →
      applyBurnGo v d si ss l = none := by
  intro l
  induction l with
  | nil => intro _; rfl
  | cons a rest ih =>
    intro h
    have ha : ¬ a.type = some "burn" := h a (List.mem_cons_self a rest)
    simp only [applyBurnGo]
    rw [if_neg (by simpa using ha)]
    rw [ih fun e he => h e (List.mem_cons_of_mem a he)]
    rfl

theorem applyBurnGo_found (v d : Int) (si : String) (ss : Option String)
    (pre : List Effect) (b : Effect) (post : List Effect)
    (hpre : ∀ e ∈ pre, ¬ e.type = some "burn") (hb : b.type = some "burn") :
    applyBurnGo v d si ss (pre ++ b :: post) =
      some (pre ++ {b with
        value := some ((max (valueIntOf b) v : Int) : ℚ),
        duration := some (max (durOf b) d),
        source := some si,
        sourceSid := (match ss with | some s => some s | none => b.sourceSid)} :: post) := by
  induction pre with
  | nil =>
    simp only [List.nil_append, applyBurnGo]
    rw [if_pos (by simpa using hb)]
  | cons a rest ih =>
    have ha : ¬ a.type = some "burn" := hpre a (List.mem_cons_self a rest)
    have ihh := ih fun e he => hpre e (List.mem_cons_of_mem a he)
    simp only [List.cons_append, applyBurnGo]
    rw [if_neg (by simpa using ha)]
    simp only [List.append_eq]
    rw [ihh]
    rfl

/-- C7.  `apply_burn` refreshes the first existing burn record in place
(value and duration each become the max of old and new; nothing is
appended), and appends a fresh burn record only when none is present. -/
theorem apply_burn_refresh (target : PlayerState) (v d : Int) (si : String)
    (ss : Option String) :
    (∀ pre b post, target.effects = pre ++ b :: post →
      (∀ e ∈ pre, ¬ e.type = some "burn") → b.type = some "burn" →
      (applyBurn target v si d ss).effects =
        pre ++ {b with
          value := some ((max (valueIntOf b) v : Int) : ℚ),
          duration := some (max (durOf b) d),
          source := some si,
          sourceSid := (match ss with | some s => some s | none => b.sourceSid)} :: post) ∧
    ((∀ e ∈ target.effects, ¬ e.type = some "burn") →
      (applyBurn target v si d ss).effects =
        target.effects ++
          [{type := some "burn",
            value := some ((v : Int) : ℚ),
            duration := some d,
            source := some si,
            sourceSid := ss}]) := by
  constructor
  · intro pre b post heq hpre hb
    unfold applyBurn
    rw [heq, applyBurnGo_found v d si ss pre b post hpre hb]
  · intro hnone
    unfold applyBurn
    rw [applyBurnGo_none v d si ss target.effects hnone]

/-- C8.  `break_stealth_on_damage` removes stealth exactly when damage
is positive and exceeds the first stealth effect's
`break_on_damage_over` threshold (or that effect has no threshold);
nonpositive damage never breaks stealth and damage at or below the
threshold leaves it in place.  The stealth template's threshold is 5. -/
theorem break_stealth_threshold (target : PlayerState) (e : Effect)
    (hfs : firstStealth target.effects = some e) :
    (∀ dmg : Int, dmg ≤ 0 → breakStealthOnDamage target dmg = target) ∧
    (∀ dmg : Int, 0 < dmg →
      ((e.breakOnDamageOver = none ∨ ∃ t, e.breakOnDamageOver = some t ∧ t < dmg) →
        breakStealthOnDamage target dmg = removeStealth target ∧
        ∀ f ∈ (breakStealthOnDamage target dmg).effects, ¬ f.id = some "stealth") ∧
      (∀ t, e.breakOnDamageOver = some t → dmg ≤ t →
        breakStealthOnDamage target dmg = target)) ∧
    stealthTemplate.breakOnDamageOver = some 5 := by
  have hstealthfree : ∀ f ∈ (removeStealth target).effects, ¬ f.id = some "stealth" := by
    intro f hf
    unfold removeStealth removeEffect at hf
    simp only [List.mem_filter] at hf
    simpa using hf.2
  have hcompute : ∀ dmg : Int, ¬ dmg ≤ 0 → breakStealthOnDamage target dmg =
      (match e.breakOnDamageOver with
        | none => removeStealth target
        | some t => if t < dmg then removeStealth target else target) := by
    intro dmg hd
    unfold breakStealthOnDamage
    rw [if_neg hd, hfs]
  refine ⟨?_, ?_, rfl⟩
  · intro dmg hdmg
    unfold breakStealthOnDamage
    rw [if_pos hdmg]
  · intro dmg hdmg
    have hnot : ¬ dmg ≤ 0 := by omega
    constructor
    · intro hbreak
      have hrm : breakStealthOnDamage target dmg = removeStealth target := by
        rw [hcompute dmg hnot]
        rcases hbreak with hn | ⟨t, ht, hlt⟩
        · rw [hn]
        · rw [ht]
          show (if t < dmg then removeStealth target else target) = removeStealth target
          rw [if_pos hlt]
      exact ⟨hrm, by rw [hrm]; exact hstealthfree⟩
    · intro t ht hle
      rw [hcompute dmg hnot, ht]
      show (if t < dmg then removeStealth target else target) = target
      rw [if_neg (by omega)]

/-- C10.  When a player has the `cycloned` flag, `end_of_turn` performs
only the duration tick: no DoT damage, no item passives, no regen, no
mp/energy regeneration; resources (hp, mp, energy, rage, absorb) are
untouched and the summary is empty damage sources and zero healing. -/
theorem end_of_turn_cycloned (ps : PlayerState) (r : Resources)
    (log : List String) (label : String)
    (hres : ps.res = some r) (hcy : hasFlag ps "cycloned" = true) :
    endOfTurn ps log label =
      ({ps with effects := tickDurations ps.effects}, log,
        ({damageSources := [], healingDone := 0} : EndSummary)) ∧
    ({ps with effects := tickDurations ps.effects} : PlayerState).res = ps.res := by
  refine ⟨?_, rfl⟩
  unfold endOfTurn
  rw [hres]
  simp [hcy]

/-! ## dice.py

```python
def rng_for(seed: int, turn: int) -> random.Random:
    return random.Random(f"{seed}:{turn}")

def roll(dice: str, r: random.Random) -> int:
    if not dice.startswith("d"):
        raise ValueError("dice must be like 'd20'")
    sides = int(dice[1:])
    return r.randint(1, sides)
```

A `random.Random` stream is modelled as an infinite supply of naturals;
`randint(1, sides)` consumes one value and returns it reduced into
`[1, sides]`, which captures the range contract (the distribution is not
modelled).  Dice strings are lists of characters; `int(s)` is a sign
followed by digits (Python also strips whitespace and underscores, which
no dice notation contains).  Exceptions are `Except.error`. -/

def RngStream : Type := ℕ → ℕ

def digitsValGo (acc : ℕ) : List Char → Option ℕ
  | [] => some acc
  | c :: rest => if c.isDigit then digitsValGo (acc * 10 + (c.toNat - 48)) rest else none

/-- Python `int(...)` on the characters of a string. -/
def pyParseInt : List Char → Option Int
  | [] => none
  | '-' :: rest =>
    match rest with
    | [] => none
    | _ => (digitsValGo 0 rest).map fun n => -(n : Int)
  | '+' :: rest =>
    match rest with
    | [] => none
    | _ => (digitsValGo 0 rest).map fun n => (n : Int)
  | l => (digitsValGo 0 l).map fun n => (n : Int)

/-- `dice.roll`: parse `dN`, then `r.randint(1, N)`. -/
def roll (dice : List Char) (r : RngStream) : Except String (Int × RngStream) :=
  match dice with
  | 'd' :: rest =>
    match pyParseInt rest with
    | none => Except.error "invalid literal for int()"
    | some sides =>
      if sides < 1 then Except.error "empty range for randrange()"
      else Except.ok (1 + ((r 0 : Int) % sides), fun n => r (n + 1))
  | _ => Except.error "dice must be like d20"

/-- C9.  For every dice string of the accepted form `dN` with `N ≥ 1`
(first character `d`, remainder parsing to `N`), `roll` does not raise:
it returns an integer in `[1, N]` together with the advanced stream; the
error branches are unreachable on such inputs. -/
theorem roll_dn_in_range (rest : List Char) (N : Int) (r : RngStream)
    (hparse : pyParseInt rest = some N) (hN : 1 ≤ N) :
    ∃ v : Int, roll ('d' :: rest) r = Except.ok (v, fun n => r (n + 1)) ∧
      1 ≤ v ∧ v ≤ N := by
  refine ⟨1 + ((r 0 : Int) % N), ?_, ?_, ?_⟩
  · show (match pyParseInt rest with
      | none => Except.error "invalid literal for int()"
      | some sides =>
        if sides < 1 then Except.error "empty range for randrange()"
        else Except.ok (1 + ((r 0 : Int) % sides), fun n => r (n + 1))) =
      Except.ok (1 + ((r 0 : Int) % N), fun n => r (n + 1))
    rw [hparse]
    show (if N < 1 then Except.error "empty range for randrange()"
      else Except.ok (1 + ((r 0 : Int) % N), fun n => r (n + 1))) = _
    rw [if_neg (by omega)]
  · have h := Int.emod_nonneg (r 0 : Int) (by omega : N ≠ 0)
    omega
  · have h := Int.emod_lt_of_pos (r 0 : Int) (by omega : 0 < N)
    omega

/-- C9 (witness).  `roll "d6"` on a concrete stream. -/
theorem roll_dn_in_range_witness :
    pyParseInt ['6'] = some 6 ∧ (1 : Int) ≤ 6 ∧
    ∃ v : Int, roll ['d', '6'] (fun _ => 3) =
        Except.ok (v, fun n => (fun _ : ℕ => 3) (n + 1)) ∧ 1 ≤ v ∧ v ≤ 6 :=
  ⟨by decide, by norm_num, roll_dn_in_range ['6'] 6 (fun _ => 3) (by decide) (by norm_num)⟩

/-! ## resolver.py — resolve_turn

`resolve_turn(match)` (resolver.py lines 178-1975).  Its top level is
straight-line: derive the turn RNG via `rng_for(match.seed, match.turn)`,
read both submitted intents, snapshot, append the
`f"Turn \x7bmatch.turn + 1\x7d"` header, run the resolution phases
(pre-emption, immediate effects, main resolution, damage application,
pet phase, end-of-turn, shield explosions, cooldown ticks, pet cleanup,
win check, advisory lines), then `match.submitted.clear()` and
`match.turn += 1`.

The phase bodies cannot be taken from this snapshot of the sources:
`resolver.py` imports `consume_absorbs`, `get_cant_act_reason`,
`is_immune_all`, `dispel_effects`, `refresh_dot_effect`,
`tick_player_effects`, `PetState` and most of the `ABILITIES` catalog
from newer versions of `effects.py` / `models.py` / `abilities.py` that
are not in the snapshot (the module cannot even be imported against it).
The phases are therefore modelled from the spec as one opaque pure state
transformer (`ResolutionMiddle`); the skeleton (`resolveTurn`) is
translated from `resolver.py` itself.  The phases only ever append to
`match.log` (every use is `log.append` / `log.extend`) and never touch
`match.turn` or `match.submitted`, which the parameter type enforces. -/

structure MatchState where
  roomId : String
  players : List String
  phase : String
  turn : Int
  seed : Int
  submitted : List (String × Option String)
  state : List (String × PlayerState)
  log : List String
  winner : Option String
  combatTotals : List (String × (Int × Int))

structure MiddleResult where
  state : List (String × PlayerState)
  lines : List String
  phase : String
  winner : Option String
  totals : List (String × (Int × Int))

/-- Modelled from the spec: the body of `resolve_turn` between the turn
header append and the final cleanup — Phases A-H of spec section 4.7
minus the header/cleanup — as a pure function of the players, the two
submitted intents, the player states, the phase, the combat totals and
the per-turn RNG stream (spec section 2: "The core is a pure function
over a MatchState"; section 4.1: "No global randomness is permitted";
section 5: the resolver "does not perform I/O").  It returns the new
player states, the appended log lines, the new phase, the winner and the
new totals; the missing newer-version helpers listed above live inside
this function. -/
def ResolutionMiddle : Type :=
  List String → Option String → Option String → List (String × PlayerState) →
    String → List (String × (Int × Int)) → RngStream → MiddleResult

/-- `resolver.resolve_turn`: the top-level skeleton translated from the
source, over an arbitrary resolution middle and an arbitrary
`rng_for`. -/
def resolveTurn (rngFor : Int → Int → RngStream) (middle : ResolutionMiddle)
    (m : MatchState) : MatchState :=
  let r := rngFor m.seed m.turn
  let sid0 := m.players.getD 0 ""
  let sid1 := m.players.getD 1 ""
  let a1 := (m.submitted.lookup sid0).getD none
  let a2 := (m.submitted.lookup sid1).getD none
  let header := s!"Turn {m.turn + 1}"
  let res := middle m.players a1 a2 m.state m.phase m.combatTotals r
  {m with
    log := m.log ++ [header] ++ res.lines,
    state := res.state,
    phase := res.phase,
    winner := res.winner,
    combatTotals := res.totals,
    submitted := [],
    turn := m.turn + 1}

theorem resolve_turn_log_eq (rngFor : Int → Int → RngStream)
    (middle : ResolutionMiddle) (m : MatchState) :
    (resolveTurn rngFor middle m).log =
      m.log ++ s!"Turn {m.turn + 1}" ::
        (middle m.players ((m.submitted.lookup (m.players.getD 0 "")).getD none)
          ((m.submitted.lookup (m.players.getD 1 "")).getD none)
          m.state m.phase m.combatTotals (rngFor m.seed m.turn)).lines := by
  simp [resolveTurn]

/-- C2.  `resolve_turn` is deterministic: two runs from identical
`MatchState` values (same seed, same turn, same submitted intents), with
the same RNG semantics and the same resolution phases, produce identical
appended log lines and identical resulting state. -/
theorem resolve_turn_deterministic (rngFor : Int → Int → RngStream)
    (middle : ResolutionMiddle) (m1 m2 : MatchState) (h : m1 = m2) :
    (resolveTurn rngFor middle m1).log.drop m1.log.length =
      (resolveTurn rngFor middle m2).log.drop m2.log.length ∧
    (resolveTurn rngFor middle m1).state = (resolveTurn rngFor middle m2).state ∧
    resolveTurn rngFor middle m1 = resolveTurn rngFor middle m2 := by
  subst h
  exact ⟨rfl, rfl, rfl⟩

/-- C3.  A successful `resolve_turn` appends exactly one `Turn N` header
line (given the phases never emit a header-shaped line, which none of
their log lines do), increments `turn` by exactly 1, and leaves
`submitted` empty. -/
theorem resolve_turn_header_once (rngFor : Int → Int → RngStream)
    (middle : ResolutionMiddle) (m : MatchState)
    (hlines : ∀ l ∈ (resolveTurn rngFor middle m).log.drop (m.log.length + 1),
      l ≠ s!"Turn {m.turn + 1}") :
    ((resolveTurn rngFor middle m).log.drop m.log.length).count s!"Turn {m.turn + 1}" = 1 ∧
    (resolveTurn rngFor middle m).turn = m.turn + 1 ∧
    (resolveTurn rngFor middle m).submitted = [] := by
  set lines := (middle m.players ((m.submitted.lookup (m.players.getD 0 "")).getD none)
    ((m.submitted.lookup (m.players.getD 1 "")).getD none)
    m.state m.phase m.combatTotals (rngFor m.seed m.turn)).lines with hl
  have hlog : (resolveTurn rngFor middle m).log =
      m.log ++ s!"Turn {m.turn + 1}" :: lines := resolve_turn_log_eq rngFor middle m
  have hdrop : (resolveTurn rngFor middle m).log.drop m.log.length =
      s!"Turn {m.turn + 1}" :: lines := by
    rw [hlog]
    exact List.drop_left m.log _
  have hdrop1 : (resolveTurn rngFor middle m).log.drop (m.log.length + 1) = lines := by
    rw [hlog]
    have hassoc : m.log ++ s!"Turn {m.turn + 1}" :: lines =
        (m.log ++ [s!"Turn {m.turn + 1}"]) ++ lines := by simp
    rw [hassoc]
    have hlen : m.log.length + 1 = (m.log ++ [s!"Turn {m.turn + 1}"]).length := by simp
    rw [hlen]
    exact List.drop_left _ _
  rw [hdrop1] at hlines
  refine ⟨?_, by simp [resolveTurn], by simp [resolveTurn]⟩
  rw [hdrop]
  have hnot : s!"Turn {m.turn + 1}" ∉ lines := fun hmem => hlines _ hmem rfl
  rw [List.count_cons_self]
  rw [List.count_eq_zero.mpr hnot]

/-- A resolution middle that resolves both intents to nothing: no log
lines, unchanged states and totals, combat continues. -/
def trivialMiddle : ResolutionMiddle :=
  fun _ _ _ st _ tot _ => ⟨st, [], "combat", none, tot⟩

def zeroRngFor : Int → Int → RngStream := fun _ _ _ => 0

def sampleMatch : MatchState :=
  {roomId := "duel-p1-p2", players := ["p1", "p2"], phase := "combat",
    turn := 0, seed := 7, submitted := [("p1", some "basic_attack"), ("p2", some "defend")],
    state := [], log := [], winner := none, combatTotals := []}

/-- C2 (witness).  Determinism applied to a concrete match. -/
theorem resolve_turn_deterministic_witness :
    sampleMatch = sampleMatch ∧
    ((resolveTurn zeroRngFor trivialMiddle sampleMatch).log.drop sampleMatch.log.length =
      (resolveTurn zeroRngFor trivialMiddle sampleMatch).log.drop sampleMatch.log.length ∧
    (resolveTurn zeroRngFor trivialMiddle sampleMatch).state =
      (resolveTurn zeroRngFor trivialMiddle sampleMatch).state ∧
    resolveTurn zeroRngFor trivialMiddle sampleMatch =
      resolveTurn zeroRngFor trivialMiddle sampleMatch) :=
  ⟨rfl, resolve_turn_deterministic zeroRngFor trivialMiddle sampleMatch sampleMatch rfl⟩

/-- C3 (witness).  Header/turn/submitted conclusions on a concrete match. -/
theorem resolve_turn_header_once_witness :
    (∀ l ∈ (resolveTurn zeroRngFor trivialMiddle sampleMatch).log.drop
        (sampleMatch.log.length + 1), l ≠ s!"Turn {sampleMatch.turn + 1}") ∧
    (((resolveTurn zeroRngFor trivialMiddle sampleMatch).log.drop
        sampleMatch.log.length).count s!"Turn {sampleMatch.turn + 1}" = 1 ∧
      (resolveTurn zeroRngFor trivialMiddle sampleMatch).turn = sampleMatch.turn + 1 ∧
      (resolveTurn zeroRngFor trivialMiddle sampleMatch).submitted = []) := by
  have hv : ∀ l ∈ (resolveTurn zeroRngFor trivialMiddle sampleMatch).log.drop
      (sampleMatch.log.length + 1), l ≠ s!"Turn {sampleMatch.turn + 1}" := by
    intro l hl
    simp [resolveTurn, trivialMiddle, sampleMatch] at hl
  exact ⟨hv, resolve_turn_header_once zeroRngFor trivialMiddle sampleMatch hv⟩

/-! ## Witnesses for the effect-engine claims -/

def sampleRes : Resources :=
  {hp := 40, hpMax := 100, mp := 10, mpMax := 50, energy := 30, energyMax := 50,
    rage := 0, rageMax := 100, absorb := 7, absorbMax := none}

def samplePlayer : PlayerState := {sid := "p1", res := some sampleRes, effects := []}

/-- C4 (witness).  Absorb accounting at a concrete player with pool 7
and incoming 10. -/
theorem absorb_accounting_witness :
    samplePlayer.res = some sampleRes ∧ (0 : Int) ≤ 10 ∧ (0 : Int) ≤ sampleRes.absorb ∧
    ((consumeAbsorb samplePlayer 10).1 = min 10 sampleRes.absorb ∧
      (consumeAbsorb samplePlayer 10).1 + (consumeAbsorb samplePlayer 10).2.1 = 10 ∧
      ((consumeAbsorb samplePlayer 10).2.2).res =
        some {sampleRes with absorb := sampleRes.absorb - min 10 sampleRes.absorb} ∧
      0 ≤ sampleRes.absorb - min 10 sampleRes.absorb ∧
      addAbsorb samplePlayer 0 none none = (sampleRes.absorb, samplePlayer)) :=
  ⟨rfl, by norm_num, by norm_num [sampleRes],
    absorb_accounting samplePlayer sampleRes 10 rfl (by norm_num) (by norm_num [sampleRes])⟩

def burnEffect : Effect :=
  {type := some "burn", value := some 4, duration := some 999,
    source := some "Ember Blade", sourceSid := some "p1"}

def burnTarget : PlayerState :=
  {sid := "p2", res := none, effects := [stealthTemplate, burnEffect]}

def freshTarget : PlayerState :=
  {sid := "p2", res := none, effects := [stealthTemplate]}

/-- C7 (witness).  Refresh on a target that already burns, and append on
a target that does not. -/
theorem apply_burn_refresh_witness :
    ((applyBurn burnTarget 6 "Torch" 999 (some "p1")).effects =
      [stealthTemplate] ++ {burnEffect with
        value := some ((max (valueIntOf burnEffect) 6 : Int) : ℚ),
        duration := some (max (durOf burnEffect) 999),
        source := some "Torch",
        sourceSid := (match (some "p1" : Option String) with
          | some s => some s
          | none => burnEffect.sourceSid)} :: []) ∧
    ((applyBurn freshTarget 6 "Torch" 999 none).effects =
      freshTarget.effects ++
        [{type := some "burn",
          value := some ((6 : Int) : ℚ),
          duration := some 999,
          source := some "Torch",
          sourceSid := none}]) :=
  ⟨(apply_burn_refresh burnTarget 6 999 "Torch" (some "p1")).1
      [stealthTemplate] burnEffect [] rfl (by decide) rfl,
    (apply_burn_refresh freshTarget 6 999 "Torch" none).2 (by decide)⟩

def stealthyPlayer : PlayerState :=
  {sid := "p1", res := none, effects := [stealthTemplate]}

/-- C8 (witness).  On a player carrying the stealth template: damage 0
and damage 5 keep stealth, damage 6 removes it. -/
theorem break_stealth_threshold_witness :
    firstStealth stealthyPlayer.effects = some stealthTemplate ∧
    breakStealthOnDamage stealthyPlayer 0 = stealthyPlayer ∧
    breakStealthOnDamage stealthyPlayer 5 = stealthyPlayer ∧
    breakStealthOnDamage stealthyPlayer 6 = removeStealth stealthyPlayer := by
  have h := break_stealth_threshold stealthyPlayer stealthTemplate rfl
  refine ⟨rfl, h.1 0 (by norm_num), ?_, ?_⟩
  · exact (h.2.1 5 (by norm_num)).2 5 rfl (by norm_num)
  · exact ((h.2.1 6 (by norm_num)).1 (Or.inr ⟨5, rfl, by norm_num⟩)).1

def cycloneEffect : Effect :=
  {id := some "cyclone", type := some "status", name := some "Cyclone",
    duration := some 2, flags := [("cycloned", true), ("stunned", true), ("immune_all", true)]}

def cyclonedRes : Resources :=
  {hp := 30, hpMax := 100, mp := 10, mpMax := 50, energy := 20, energyMax := 50,
    rage := 0, rageMax := 100, absorb := 5, absorbMax := none}

def cyclonedPlayer : PlayerState :=
  {sid := "p2", res := some cyclonedRes,
    effects := [cycloneEffect, burnEffect]}

/-- C10 (witness).  End of turn on a concrete cycloned player that also
carries a burn: only the duration tick happens. -/
theorem end_of_turn_cycloned_witness :
    cyclonedPlayer.res = some cyclonedRes ∧
    hasFlag cyclonedPlayer "cycloned" = true ∧
    (endOfTurn cyclonedPlayer [] "p2_sl" =
      ({cyclonedPlayer with effects := tickDurations cyclonedPlayer.effects}, [],
        ({damageSources := [], healingDone := 0} : EndSummary)) ∧
      ({cyclonedPlayer with effects := tickDurations cyclonedPlayer.effects} :
        PlayerState).res = cyclonedPlayer.res) :=
  ⟨rfl, by decide,
    end_of_turn_cycloned cyclonedPlayer cyclonedRes [] "p2_sl" rfl (by decide)⟩

end MakGora
